import Mathlib

/-!
# Verification of the lanzatool core (lanzaboote)

Shallow embedding of the Rust sources under `src/rust/lanzatool/src/`:

* `gc.rs` — `Roots::collect_garbage`, modelled twice:
  - as a pure sweep over a finite directory tree (`FSTree`, `sweep`), capturing
    the pre-order walk of `WalkDir`, the exact-path membership test
    `Roots::in_use`, `fs::remove_dir_all` on unprotected directories (the walker
    never yields children of a directory removed before their directory handle
    is read), and `fs::remove_file` on unprotected files;
  - as a run over an explicit list of walker events (`collectGarbageEvents`)
    with failure oracles for the two removal operations, capturing the error
    flow: `let entry = e?` (traversal errors are fatal), `fs::remove_dir_all
    (...)?` (fatal), `fs::remove_file(path).ok()` (swallowed).
* `esp.rs` — `nixos_path`, `generation_path`, `EspPaths::new`. Paths produced
  by these functions are tracked by their displayed (string) form; `PathBuf::
  join` of the non-empty relative names built here is string concatenation
  with `"/"` at that level.
* `generation.rs` — `parse_version`, `Generation`, `Generation::specialise`,
  `Generation::extract_extensions` (with serde deserialization of
  `SecureBootExtension` modelled over a small JSON value type).

Rust `Path` values that undergo component-wise operations (`parent`,
`strip_prefix`, `file_name`, `read_link`) are modelled by `RPath`: an
absolute-flag plus the list of normal components (the paths handled by this
program contain no `.`/`..` components). `read_link` is I/O and is passed in
as an oracle `RPath → Option RPath`.
-/

namespace Lanzatool

/-! ## Filesystem model for the garbage collector (`gc.rs`) -/

/-- A filesystem path, as the list of its name components relative to some
fixed origin. `Roots.0.contains(e.path())` is exact equality of such lists. -/
abbrev FsPath := List String

/-- A finite directory tree: what is on disk below (and including) one entry. -/
inductive FSTree where
  | file : String → FSTree
  | dir : String → List FSTree → FSTree

/-- Name of the entry at the root of the tree. -/
def FSTree.name : FSTree → String
  | .file n => n
  | .dir n _ => n

mutual
/-- All paths that exist in the tree `t` whose root entry lives inside the
directory `parent` (the root entry itself included), i.e. the set of entries a
full `WalkDir` traversal of an undisturbed tree would visit. -/
def pathsOf (parent : FsPath) : FSTree → List FsPath
  | .file n => [parent ++ [n]]
  | .dir n cs => (parent ++ [n]) :: pathsOfList (parent ++ [n]) cs

/-- Paths of a list of sibling trees inside the directory `parent`. -/
def pathsOfList (parent : FsPath) : List FSTree → List FsPath
  | [] => []
  | c :: cs => pathsOf parent c ++ pathsOfList parent cs
end

/-- Paths remaining when the swept root may have been deleted altogether. -/
def pathsOfOpt (parent : FsPath) : Option FSTree → List FsPath
  | none => []
  | some t => pathsOf parent t

mutual
/-- `Roots::collect_garbage` on a directory state, from `gc.rs` lines 31–54:
the walker visits the entry `parent ++ [t.name]` first (pre-order, the root
directory itself included); an entry whose exact path is in the root set
(`in_use`) is kept and, for a directory, traversal continues into its
children; an entry not in the set is removed — a directory via
`fs::remove_dir_all` together with its entire subtree (its children are never
yielded by the walker afterwards), a file via `fs::remove_file`. The result is
the tree remaining on disk, `none` if the root entry itself was removed. -/
def sweep (inUse : FsPath → Bool) (parent : FsPath) : FSTree → Option FSTree
  | .file n => if inUse (parent ++ [n]) then some (.file n) else none
  | .dir n cs =>
      if inUse (parent ++ [n]) then
        some (.dir n (sweepList inUse (parent ++ [n]) cs))
      else
        none

/-- The sweep applied to each child of a kept directory in walker order. -/
def sweepList (inUse : FsPath → Bool) (parent : FsPath) : List FSTree → List FSTree
  | [] => []
  | c :: cs =>
      (match sweep inUse parent c with
        | some c2 => [c2]
        | none => []) ++ sweepList inUse parent cs
end

mutual
/-- Induction over a directory tree with the induction hypothesis available
for every child of a directory. -/
def FSTree.inductionOn {motive : FSTree → Prop}
    (hfile : ∀ n, motive (FSTree.file n))
    (hdir : ∀ n cs, (∀ c, c ∈ cs → motive c) → motive (FSTree.dir n cs)) :
    ∀ t, motive t
  | FSTree.file n => hfile n
  | FSTree.dir n cs => hdir n cs (FSTree.inductionOnList hfile hdir cs)

/-- Companion to `FSTree.inductionOn` for lists of sibling trees. -/
def FSTree.inductionOnList {motive : FSTree → Prop}
    (hfile : ∀ n, motive (FSTree.file n))
    (hdir : ∀ n cs, (∀ c, c ∈ cs → motive c) → motive (FSTree.dir n cs)) :
    ∀ cs : List FSTree, ∀ c : FSTree, c ∈ cs → motive c
  | c :: cs, d, h =>
      match d, h with
      | _, List.Mem.head _ => FSTree.inductionOn hfile hdir c
      | e, List.Mem.tail _ h2 => FSTree.inductionOnList hfile hdir cs e h2
end

/-! ## Event model for the error flow of `collect_garbage` (`gc.rs`) -/

/-- One entry yielded by the `WalkDir` iterator, with the result of the
`path.is_dir()` check the loop body performs on it. -/
inductive WalkEntry where
  | file : FsPath → WalkEntry
  | dir : FsPath → WalkEntry
deriving DecidableEq

/-- The `e.path()` of a yielded entry. -/
def WalkEntry.path : WalkEntry → FsPath
  | .file p => p
  | .dir p => p

/-- One item produced by the `WalkDir` iterator: `Ok(entry)` or a traversal
error (`walkdir::Error`). -/
inductive WalkEvent where
  | ok : WalkEntry → WalkEvent
  | err : WalkEvent
deriving DecidableEq

/-- The `e.as_ref().ok()` view of a walker item. -/
def WalkEvent.entry : WalkEvent → Option WalkEntry
  | .ok e => some e
  | .err => none

/-- `Roots::in_use` from `gc.rs` lines 24–29: a present entry is in use iff
its exact path is in the root set; an errored item is not in use. -/
def in_use (roots : FsPath → Bool) : Option WalkEntry → Bool
  | some e => roots e.path
  | none => false

/-- The loop of `Roots::collect_garbage` (`gc.rs` lines 33–53) over the items
the walker produces, with oracles telling which `fs::remove_dir_all` and
`fs::remove_file` calls fail. Items that are in use are dropped by the
`filter`; for the remaining items, `let entry = e?` turns a traversal error
into an early fatal return, `fs::remove_dir_all(path)...?` turns a failed
directory removal into an early fatal return, and the result of
`fs::remove_file(path)` is discarded by `.ok()`. -/
def collectGarbageEvents (roots : FsPath → Bool)
    (removeDirAllFails removeFileFails : FsPath → Bool) :
    List WalkEvent → Except Unit Unit
  | [] => Except.ok ()
  | ev :: rest =>
      if in_use roots ev.entry then
        collectGarbageEvents roots removeDirAllFails removeFileFails rest
      else
        match ev with
        | .err => Except.error ()
        | .ok (WalkEntry.dir p) =>
            if removeDirAllFails p then
              Except.error ()
            else
              collectGarbageEvents roots removeDirAllFails removeFileFails rest
        | .ok (WalkEntry.file p) =>
            let _ := removeFileFails p
            collectGarbageEvents roots removeDirAllFails removeFileFails rest

/-- A walker item on which `collect_garbage` aborts: a traversal error, or an
unprotected directory whose `fs::remove_dir_all` fails. -/
def eventFatal (roots removeDirAllFails : FsPath → Bool) : WalkEvent → Bool
  | WalkEvent.err => true
  | WalkEvent.ok (WalkEntry.dir p) => !roots p && removeDirAllFails p
  | WalkEvent.ok (WalkEntry.file _) => false

/-! ## Rust `Path` model and string helpers -/

/-- A Rust `Path`/`PathBuf` whose components are all normal names: an
absolute-path flag and the component list. All paths handled by `esp.rs` and
`generation.rs` are of this shape. -/
structure RPath where
  absolute : Bool
  components : List String
deriving DecidableEq

/-- Components joined by a separator, as `std::path::Display` renders the
component sequence of a path. -/
def joinSep (sep : String) : List String → String
  | [] => ""
  | [x] => x
  | x :: y :: xs => x ++ sep ++ joinSep sep (y :: xs)

/-- The `Display` rendering of a path (`path.display()`). -/
def RPath.display (p : RPath) : String :=
  (if p.absolute then "/" else "") ++ joinSep "/" p.components

/-- `Path::parent`: drops the last component; `None` for a path with no
components (the root `/` or the empty path). -/
def RPath.parent (p : RPath) : Option RPath :=
  match p.components with
  | [] => none
  | _ :: _ => some ⟨p.absolute, p.components.dropLast⟩

/-- `Path::file_name`: the last component, if any. -/
def RPath.fileName (p : RPath) : Option String :=
  p.components.getLast?

/-- `Path::strip_prefix("/nix/store")`: succeeds iff the path is absolute and
its first two components are `nix`, `store`; the result is the relative
remainder. -/
def RPath.stripNixStore (p : RPath) : Option RPath :=
  if p.absolute then
    match p.components with
    | "nix" :: "store" :: rest => some ⟨false, rest⟩
    | _ => none
  else
    none

/-- Rust `str::split(sep)` over the character list: splitting on every
occurrence of the separator, keeping empty fields. -/
def splitChars (sep : Char) : List Char → List (List Char)
  | [] => [[]]
  | c :: cs =>
      if c = sep then
        [] :: splitChars sep cs
      else
        match splitChars sep cs with
        | t :: ts => (c :: t) :: ts
        | [] => [[c]]

/-- Rust `str::split(sep)` producing strings. -/
def rustSplit (sep : Char) (s : String) : List String :=
  (splitChars sep s.data).map (fun l => ⟨l⟩)

/-- Rust `str::parse::<u64>()`: an optional leading `+` sign, then one or more
ASCII decimal digits; fails on an empty digit sequence, a non-digit character,
or a value exceeding `u64::MAX`. -/
def rustParseU64 (s : String) : Option Nat :=
  let digits :=
    match s.data with
    | '+' :: rest => rest
    | l => l
  if digits.isEmpty then
    none
  else if digits.all (fun c => c.isDigit) then
    let v := digits.foldl (fun acc c => acc * 10 + (c.toNat - '0'.toNat)) 0
    if v < 2 ^ 64 then some v else none
  else
    none

/-! ## Generation resolution (`generation.rs`) -/

/-- A JSON value, as found in the free-form `extensions` map of a bootspec
(`serde_json::Value`). -/
inductive Json where
  | null
  | bool : Bool → Json
  | num : Int → Json
  | str : String → Json
  | arr : List Json → Json
  | obj : List (String × Json) → Json

/-- First value bound to a key in a JSON object / extension map. -/
def jsonLookup (key : String) : List (String × Json) → Option Json
  | [] => none
  | (k, v) :: rest => if k = key then some v else jsonLookup key rest

/-- The part of a `bootspec::BootJson` that `esp.rs` and `generation.rs`
read: the kernel path, the optional initrd path, and the free-form
string-keyed extension map. -/
structure BootJson where
  kernel : RPath
  initrd : Option RPath
  extensions : List (String × Json)

/-- `SecureBootExtension` from `generation.rs`: the `osRelease` path (kept in
its displayed form). -/
structure SecureBootExtension where
  os_release : String
deriving DecidableEq

/-- Serde deserialization of `SecureBootExtension` from a JSON value:
requires an object with an `osRelease` string field (unknown fields are
ignored, as serde does by default). -/
def deserializeSecureBootExtension : Json → Except String SecureBootExtension
  | Json.obj fields =>
      match jsonLookup "osRelease" fields with
      | some (Json.str s) => Except.ok ⟨s⟩
      | some _ => Except.error "invalid type for field osRelease"
      | none => Except.error "missing field osRelease"
  | _ => Except.error "invalid type: expected a map for SecureBootExtension"

/-- `ExtendedBootJson` from `generation.rs`. -/
structure ExtendedBootJson where
  bootspec : BootJson
  extensions : SecureBootExtension

/-- `Generation` from `generation.rs`: profile symlink index, optional
top-level specialisation name, extended boot specification. -/
structure Generation where
  version : Nat
  specialisation_name : Option String
  spec : ExtendedBootJson

/-- `Generation::extract_extensions`: looks up the fixed `lanzaboote` key in
the descriptor's extension map, failing if it is absent, then deserializes
the value into `SecureBootExtension`. -/
def extract_extensions (bootspec : BootJson) : Except String SecureBootExtension :=
  match jsonLookup "lanzaboote" bootspec.extensions with
  | none =>
      Except.error
        "Failed to extract Lanzaboote-specific extension from Bootspec, missing lanzaboote field in `extensions`"
  | some v => deserializeSecureBootExtension v

/-- `Generation::specialise`: a new `Generation` with the same version, the
given specialisation name, and a spec built from the given descriptor with
extension extraction re-run on it. -/
def Generation.specialise (g : Generation) (name : String) (bootspec : BootJson) :
    Except String Generation :=
  match extract_extensions bootspec with
  | Except.error e => Except.error e
  | Except.ok ext =>
      Except.ok
        { version := g.version
          specialisation_name := some name
          spec := { bootspec := bootspec, extensions := ext } }

/-- `Generation::is_specialized`. -/
def Generation.is_specialized (g : Generation) : Option String :=
  g.specialisation_name

/-- The `fmt::Display` implementation for `Generation` (`generation.rs` lines
91–95): the decimal rendering of the version number, nothing else. -/
def generationDisplay (g : Generation) : String :=
  Nat.repr g.version

/-- `parse_version` from `generation.rs` lines 139–162: takes the file name of
the link path, splits it on `-`, and parses the second field as a `u64`. -/
def parse_version (path : RPath) : Except String Nat :=
  match path.fileName with
  | none =>
      Except.error
        ("Failed to extract file name from generation link path: " ++ path.display)
  | some file_name_str =>
      match (rustSplit '-' file_name_str)[1]? with
      | none =>
          Except.error ("Failed to extract version from link: " ++ file_name_str)
      | some generation_version_str =>
          match rustParseU64 generation_version_str with
          | none =>
              Except.error
                ("Failed to parse generation version: " ++ generation_version_str)
          | some v => Except.ok v

/-! ## ESP path derivation (`esp.rs`) -/

/-- `nixos_path` from `esp.rs` lines 73–96: resolve the artifact path through
one `read_link` (the oracle `readLink`), falling back to the path itself when
resolution fails; take the parent of the resolved path (error if it has
none); strip the literal `/nix/store` from the parent (error if the prefix is
absent — note the error message quotes the original, unresolved path); return
the file name `"{suffix}-{name}.efi"` where the suffix is the displayed
remainder. -/
def nixos_path (readLink : RPath → Option RPath) (path : RPath) (name : String) :
    Except String String :=
  let resolved := (readLink path).getD path
  match resolved.parent with
  | none =>
      Except.error ("Path: " ++ (resolved.display ++ " does not have a parent"))
  | some parent =>
      match parent.stripNixStore with
      | none =>
          Except.error ("Failed to strip /nix/store from path " ++ path.display)
      | some without_store =>
          Except.ok (without_store.display ++ "-" ++ name ++ ".efi")

/-- `generation_path` from `esp.rs` lines 98–107: the merged-image file name,
embedding the `Display` rendering of the generation and, for a
specialisation, its name. -/
def generation_path (g : Generation) : String :=
  match g.is_specialized with
  | some specialisation_name =>
      ("nixos-generation-" ++ generationDisplay g) ++
        ("-specialisation-" ++ (specialisation_name ++ ".efi"))
  | none => ("nixos-generation-" ++ generationDisplay g) ++ ".efi"

/-- `EspPaths` from `esp.rs`, with every path kept in its displayed (string)
form. -/
structure EspPaths where
  esp : String
  efi : String
  nixos : String
  kernel : String
  initrd : String
  linux : String
  lanzaboote_image : String
  efi_fallback_dir : String
  efi_fallback : String
  systemd : String
  systemd_boot : String
deriving DecidableEq

/-- `EspPaths::new` from `esp.rs` lines 23–52. The struct fields are
evaluated in source order, so the `kernel` field's `nixos_path` call runs
before the `initrd` field checks that the bootspec has an initrd (the
`context` that produces the missing-initrd error) and, when it does, derives
its name. `join` on the non-empty relative names built here is string
concatenation with `"/"`. -/
def EspPaths.new (readLink : RPath → Option RPath) (esp : String) (generation : Generation) :
    Except String EspPaths :=
  let efi := esp ++ "/EFI"
  let efi_nixos := efi ++ "/nixos"
  let efi_linux := efi ++ "/Linux"
  let efi_systemd := efi ++ "/systemd"
  let efi_efi_fallback_dir := efi ++ "/BOOT"
  let bootspec := generation.spec.bootspec
  match nixos_path readLink bootspec.kernel "bzImage" with
  | Except.error e => Except.error e
  | Except.ok kernelName =>
      match bootspec.initrd with
      | none => Except.error "Lanzaboote does not support missing initrd yet"
      | some initrdArtifact =>
          match nixos_path readLink initrdArtifact "initrd" with
          | Except.error e => Except.error e
          | Except.ok initrdName =>
              Except.ok
                { esp := esp
                  efi := efi
                  nixos := efi_nixos
                  kernel := efi_nixos ++ "/" ++ kernelName
                  initrd := efi_nixos ++ "/" ++ initrdName
                  linux := efi_linux
                  lanzaboote_image := efi_linux ++ "/" ++ generation_path generation
                  efi_fallback_dir := efi_efi_fallback_dir
                  efi_fallback := efi_efi_fallback_dir ++ "/" ++ "BOOTX64.EFI"
                  systemd := efi_systemd
                  systemd_boot := efi_systemd ++ "/" ++ "systemd-bootx64.efi" }

/-! ## Concrete fixtures used to evaluate the definitions -/

/-- A `read_link` oracle under which no artifact is a symbolic link:
resolution always fails and `nixos_path` falls back to the path itself. -/
def readLinkNone : RPath → Option RPath := fun _ => none

/-- A bootspec whose kernel and initrd live in the given store objects and
whose extension map carries a well-formed `lanzaboote` entry. -/
def bootJsonFixture (kernelObj initrdObj : String) : BootJson :=
  { kernel := ⟨true, ["nix", "store", kernelObj, "bzImage"]⟩
    initrd := some ⟨true, ["nix", "store", initrdObj, "initrd"]⟩
    extensions := [("lanzaboote", Json.obj [("osRelease", Json.str "/nix/store/sys/os-release")])] }

/-- Fixture generation 1, base (no specialisation), kernel in `aaa-kernel`. -/
def genA : Generation :=
  ⟨1, none, ⟨bootJsonFixture "aaa-kernel" "aaa-initrd", ⟨"/nix/store/sys/os-release"⟩⟩⟩

/-- Fixture generation 1 with a kernel in a different store object. -/
def genB : Generation :=
  ⟨1, none, ⟨bootJsonFixture "bbb-kernel" "aaa-initrd", ⟨"/nix/store/sys/os-release"⟩⟩⟩

/-- Specialisation `x` of fixture generation 1. -/
def genAx : Generation :=
  ⟨1, some "x", ⟨bootJsonFixture "aaa-kernel" "aaa-initrd", ⟨"/nix/store/sys/os-release"⟩⟩⟩

/-- Specialisation `y` of fixture generation 1. -/
def genAy : Generation :=
  ⟨1, some "y", ⟨bootJsonFixture "aaa-kernel" "aaa-initrd", ⟨"/nix/store/sys/os-release"⟩⟩⟩

/-- Result of specialising fixture generation 1 under the name `vm`. -/
def genAvm : Generation :=
  ⟨1, some "vm", ⟨bootJsonFixture "aaa-kernel" "aaa-initrd", ⟨"/nix/store/sys/os-release"⟩⟩⟩

/-- Fixture generation whose kernel is outside the store and which has no
initrd. -/
def genOutsideStoreNoInitrd : Generation :=
  ⟨7, none, ⟨{ kernel := ⟨true, ["boot", "vmlinuz"]⟩, initrd := none, extensions := [] },
    ⟨"/nix/store/sys/os-release"⟩⟩⟩

/-- Fixture generation with a store kernel but no initrd. -/
def genNoInitrd : Generation :=
  ⟨7, none,
    ⟨{ kernel := ⟨true, ["nix", "store", "ccc-kernel", "bzImage"]⟩
       initrd := none
       extensions := [] }, ⟨"/nix/store/sys/os-release"⟩⟩⟩

/-! ## String lemmas -/

theorem strData_append (a b : String) : (a ++ b).data = a.data ++ b.data := by
  cases a
  cases b
  rfl

theorem strEq_of_data {a b : String} (h : a.data = b.data) : a = b := by
  cases a
  cases b
  exact congrArg String.mk h

theorem strAppend_right_cancel {a b c : String} (h : a ++ c = b ++ c) : a = b := by
  apply strEq_of_data
  have hd : a.data ++ c.data = b.data ++ c.data := by
    rw [← strData_append, ← strData_append, h]
  exact List.append_cancel_right hd

theorem strAppend_left_cancel {a b c : String} (h : c ++ a = c ++ b) : a = b := by
  apply strEq_of_data
  have hd : c.data ++ a.data = c.data ++ b.data := by
    rw [← strData_append, ← strData_append, h]
  exact List.append_cancel_left hd

theorem strHead_append {pre : String} (x : String) {c : Char} {tl : List Char}
    (h : pre.data = c :: tl) : (pre ++ x).data.head? = some c := by
  rw [strData_append, h]
  rfl

theorem strNe_of_head {a b : String} {x y : Char} (ha : a.data.head? = some x)
    (hb : b.data.head? = some y) (hxy : x ≠ y) : a ≠ b := by
  intro h
  apply hxy
  have hab : a.data.head? = b.data.head? := by rw [h]
  rw [ha, hb] at hab
  exact Option.some.inj hab

/-! ## Lemmas about the sweep -/

theorem mem_pathsOfList {parent q : FsPath} :
    ∀ {cs : List FSTree}, q ∈ pathsOfList parent cs ↔ ∃ c, c ∈ cs ∧ q ∈ pathsOf parent c := by
  intro cs
  induction cs with
  | nil => simp [pathsOfList]
  | cons c cs ih =>
      simp only [pathsOfList, List.mem_append, ih, List.mem_cons]
      constructor
      · rintro (h | ⟨d, hd, hq⟩)
        · exact ⟨c, Or.inl rfl, h⟩
        · exact ⟨d, Or.inr hd, hq⟩
      · rintro ⟨d, hd | hd, hq⟩
        · exact Or.inl (hd ▸ hq)
        · exact Or.inr ⟨d, hd, hq⟩

theorem mem_sweepList {inUse : FsPath → Bool} {parent : FsPath} :
    ∀ {cs : List FSTree} {c2 : FSTree},
      c2 ∈ sweepList inUse parent cs ↔ ∃ c, c ∈ cs ∧ sweep inUse parent c = some c2 := by
  intro cs
  induction cs with
  | nil => simp [sweepList]
  | cons c cs ih =>
      intro c2
      rw [sweepList]
      cases hs : sweep inUse parent c with
      | none =>
          simp only [List.nil_append, ih, List.mem_cons]
          constructor
          · rintro ⟨d, hd, hq⟩
            exact ⟨d, Or.inr hd, hq⟩
          · rintro ⟨d, hd | hd, hq⟩
            · rw [hd, hs] at hq
              exact Option.noConfusion hq
            · exact ⟨d, hd, hq⟩
      | some d =>
          simp only [List.singleton_append, List.mem_cons, ih]
          constructor
          · rintro (h | ⟨e, he, hq⟩)
            · exact ⟨c, Or.inl rfl, h ▸ hs⟩
            · exact ⟨e, Or.inr he, hq⟩
          · rintro ⟨e, he | he, hq⟩
            · rw [he, hs] at hq
              exact Or.inl (Option.some.inj hq).symm
            · exact Or.inr ⟨e, he, hq⟩

theorem pathsOf_startsWith {q : FsPath} :
    ∀ t : FSTree, ∀ parent : FsPath, q ∈ pathsOf parent t →
      ∃ r, (parent ++ [t.name]) ++ r = q := by
  intro t
  induction t using FSTree.inductionOn with
  | hfile n =>
      intro parent hq
      simp only [pathsOf, List.mem_singleton] at hq
      exact ⟨[], by simp [FSTree.name, hq]⟩
  | hdir n cs ih =>
      intro parent hq
      simp only [pathsOf, List.mem_cons] at hq
      rcases hq with hq | hq
      · exact ⟨[], by simp [FSTree.name, hq]⟩
      · rcases mem_pathsOfList.mp hq with ⟨c, hc, hqc⟩
        rcases ih c hc (parent ++ [n]) hqc with ⟨r, hr⟩
        exact ⟨[c.name] ++ r, by
          rw [← hr, FSTree.name]
          simp [List.append_assoc]⟩

theorem length_lt_of_mem_pathsOf {q : FsPath} {t : FSTree} {parent : FsPath}
    (hq : q ∈ pathsOf parent t) : parent.length < q.length := by
  rcases pathsOf_startsWith t parent hq with ⟨r, hr⟩
  rw [← hr]
  simp

theorem sweep_mem_inUse {inUse : FsPath → Bool} :
    ∀ t : FSTree, ∀ parent q : FsPath,
      q ∈ pathsOfOpt parent (sweep inUse parent t) → inUse q = true := by
  intro t
  induction t using FSTree.inductionOn with
  | hfile n =>
      intro parent q hq
      rw [sweep] at hq
      by_cases h : inUse (parent ++ [n]) = true
      · rw [if_pos h] at hq
        simp only [pathsOfOpt, pathsOf, List.mem_singleton] at hq
        rw [hq]
        exact h
      · rw [if_neg h] at hq
        exact absurd hq (List.not_mem_nil q)
  | hdir n cs ih =>
      intro parent q hq
      rw [sweep] at hq
      by_cases h : inUse (parent ++ [n]) = true
      · rw [if_pos h] at hq
        simp only [pathsOfOpt, pathsOf, List.mem_cons] at hq
        rcases hq with hq | hq
        · rw [hq]
          exact h
        · rcases mem_pathsOfList.mp hq with ⟨c2, hc2, hqc2⟩
          rcases mem_sweepList.mp hc2 with ⟨c, hc, hsc⟩
          apply ih c hc (parent ++ [n]) q
          rw [hsc]
          exact hqc2
      · rw [if_neg h] at hq
        exact absurd hq (List.not_mem_nil q)

theorem pathsOf_take_mem {q : FsPath} {k : Nat} :
    ∀ t : FSTree, ∀ parent : FsPath, q ∈ pathsOf parent t →
      parent.length < k → k ≤ q.length → q.take k ∈ pathsOf parent t := by
  intro t
  induction t using FSTree.inductionOn with
  | hfile n =>
      intro parent hq hk1 hk2
      simp only [pathsOf, List.mem_singleton] at hq ⊢
      have hlen : q.length = parent.length + 1 := by
        rw [hq]
        simp
      have hkq : k = q.length := by omega
      rw [hkq, List.take_length]
      exact hq
  | hdir n cs ih =>
      intro parent hq hk1 hk2
      simp only [pathsOf, List.mem_cons] at hq ⊢
      rcases hq with hq | hq
      · have hlen : q.length = parent.length + 1 := by
          rw [hq]
          simp
        have hkq : k = q.length := by omega
        rw [hkq, List.take_length]
        exact Or.inl hq
      · rcases mem_pathsOfList.mp hq with ⟨c, hc, hqc⟩
        by_cases hk : (parent ++ [n]).length < k
        · refine Or.inr (mem_pathsOfList.mpr ⟨c, hc, ?_⟩)
          exact ih c hc (parent ++ [n]) hqc hk hk2
        · left
          rcases pathsOf_startsWith c (parent ++ [n]) hqc with ⟨r, hr⟩
          have hklen : k = (parent ++ [n]).length := by
            simp only [List.length_append, List.length_singleton] at hk ⊢
            omega
          rw [← hr, List.append_assoc, hklen, List.take_left]

theorem sweep_eq_none_of_not_inUse {inUse : FsPath → Bool} {parent : FsPath} {t : FSTree}
    (h : inUse (parent ++ [t.name]) = false) : sweep inUse parent t = none := by
  cases t with
  | file n =>
      rw [FSTree.name] at h
      rw [sweep, if_neg (by rw [h]; exact Bool.false_ne_true)]
  | dir n cs =>
      rw [FSTree.name] at h
      rw [sweep, if_neg (by rw [h]; exact Bool.false_ne_true)]

theorem not_mem_sweep_of_take {inUse : FsPath → Bool} {parent q : FsPath} {t : FSTree}
    {k : Nat} (hk1 : parent.length < k) (hk2 : k ≤ q.length)
    (h : inUse (q.take k) = false) : q ∉ pathsOfOpt parent (sweep inUse parent t) := by
  intro hq
  cases hs : sweep inUse parent t with
  | none =>
      rw [hs] at hq
      exact absurd hq (List.not_mem_nil q)
  | some t2 =>
      rw [hs] at hq
      have htk : q.take k ∈ pathsOf parent t2 := pathsOf_take_mem t2 parent hq hk1 hk2
      have : inUse (q.take k) = true := by
        apply sweep_mem_inUse t parent
        rw [hs]
        exact htk
      rw [h] at this
      exact Bool.noConfusion this

theorem sweep_preserves_chain {inUse : FsPath → Bool} {q : FsPath} :
    ∀ t : FSTree, ∀ parent : FsPath, q ∈ pathsOf parent t →
      (∀ k, parent.length < k → k ≤ q.length → inUse (q.take k) = true) →
      q ∈ pathsOfOpt parent (sweep inUse parent t) := by
  intro t
  induction t using FSTree.inductionOn with
  | hfile n =>
      intro parent hq hanc
      simp only [pathsOf, List.mem_singleton] at hq
      have hlen : q.length = parent.length + 1 := by
        rw [hq]
        simp
      have hin : inUse q = true := by
        have := hanc q.length (by omega) (by omega)
        rwa [List.take_length] at this
      have hroot : parent ++ [n] = q := hq.symm
      simp only [sweep]
      rw [hroot, if_pos hin]
      simp only [pathsOfOpt, pathsOf, List.mem_singleton]
      exact hq
  | hdir n cs ih =>
      intro parent hq hanc
      simp only [pathsOf, List.mem_cons] at hq
      have hin : inUse (parent ++ [n]) = true := by
        rcases hq with hq | hq
        · have hlen : q.length = parent.length + 1 := by
            rw [hq]
            simp
          have := hanc q.length (by omega) (by omega)
          rw [List.take_length] at this
          rw [hq] at this
          exact this
        · rcases mem_pathsOfList.mp hq with ⟨c, hc, hqc⟩
          rcases pathsOf_startsWith c (parent ++ [n]) hqc with ⟨r, hr⟩
          have hlen : q.length = parent.length + 2 + r.length := by
            rw [← hr]
            simp
            omega
          have htake : q.take (parent.length + 1) = parent ++ [n] := by
            rw [← hr, List.append_assoc]
            have : parent.length + 1 = (parent ++ [n]).length := by simp
            rw [this, List.take_left]
          have := hanc (parent.length + 1) (by omega) (by omega)
          rwa [htake] at this
      simp only [sweep]
      rw [if_pos hin]
      simp only [pathsOfOpt, pathsOf, List.mem_cons]
      rcases hq with hq | hq
      · exact Or.inl hq
      · rcases mem_pathsOfList.mp hq with ⟨c, hc, hqc⟩
        have hanc2 : ∀ k, (parent ++ [n]).length < k → k ≤ q.length →
            inUse (q.take k) = true := by
          intro k h1 h2
          apply hanc k ?_ h2
          simp only [List.length_append, List.length_singleton] at h1
          omega
        have hrec := ih c hc (parent ++ [n]) hqc hanc2
        cases hsc : sweep inUse (parent ++ [n]) c with
        | none =>
            rw [hsc] at hrec
            exact absurd hrec (List.not_mem_nil q)
        | some c2 =>
            rw [hsc] at hrec
            exact Or.inr (mem_pathsOfList.mpr ⟨c2, mem_sweepList.mpr ⟨c, hc, hsc⟩, hrec⟩)

/-! ## Claims C1, C2, C10: the sweep on a directory state -/

/-- C1 counterexample: with the protected set `S = {root, root/a/f}` and the
directory state `root/a/f`, the path `root/a/f` is in `S` and exists before
the sweep, but does not exist afterwards: its parent directory `root/a` is not
protected, so `collect_garbage` removes it together with its entire subtree. -/
theorem C1_counterexample :
    (["root", "a", "f"] ∈ pathsOf []
        (FSTree.dir "root" [FSTree.dir "a" [FSTree.file "f"]])) ∧
    ((fun q => List.contains [["root"], ["root", "a", "f"]] q) ["root", "a", "f"] = true) ∧
    (["root", "a", "f"] ∉ pathsOfOpt []
        (sweep (fun q => List.contains [["root"], ["root", "a", "f"]] q) []
          (FSTree.dir "root" [FSTree.dir "a" [FSTree.file "f"]]))) := by
  refine ⟨by decide, by decide, by decide⟩

/-- C1 (amended): for every protected set `S` and every directory state, after
a successful `collect_garbage`, every path that is a member of `S`, existed
before the call, and all of whose enclosing directories within the swept tree
(every proper prefix longer than the walk origin, the swept root included) are
also members of `S`, still exists after the call. -/
theorem C1_root_preservation (inUse : FsPath → Bool) (parent : FsPath) (t : FSTree)
    (q : FsPath) (hq : q ∈ pathsOf parent t) (_hin : inUse q = true)
    (hanc : ∀ k, parent.length < k → k ≤ q.length → inUse (q.take k) = true) :
    q ∈ pathsOfOpt parent (sweep inUse parent t) :=
  sweep_preserves_chain t parent hq hanc

/-- C1 witness: a protected file directly inside the protected swept root is
still there after the sweep. -/
theorem C1_root_preservation_witness :
    (["root", "keep"] ∈ pathsOf [] (FSTree.dir "root" [FSTree.file "keep"])) ∧
    ((fun q => List.contains [["root"], ["root", "keep"]] q) ["root", "keep"] = true) ∧
    (["root", "keep"] ∈ pathsOfOpt []
        (sweep (fun q => List.contains [["root"], ["root", "keep"]] q) []
          (FSTree.dir "root" [FSTree.file "keep"]))) := by
  refine ⟨by decide, by decide, ?_⟩
  apply C1_root_preservation (fun q => List.contains [["root"], ["root", "keep"]] q) []
    (FSTree.dir "root" [FSTree.file "keep"]) ["root", "keep"] (by decide) (by decide)
  intro k h1 h2
  have h1b : 1 ≤ k := by simpa using h1
  have h2b : k ≤ 2 := by simpa using h2
  interval_cases k <;> decide

/-- C2: after a successful `collect_garbage`, every path that existed before
the call and is not a member of the protected set is absent afterwards (this
holds with no exception for paths nested under a removed unprotected
directory: those are absent as well); moreover an unprotected directory is
deleted with its entire subtree, without the walker descending into it. -/
theorem C2_sweep_completeness (inUse : FsPath → Bool) (parent : FsPath) (t : FSTree) :
    (∀ q : FsPath, q ∈ pathsOf parent t → inUse q = false →
        q ∉ pathsOfOpt parent (sweep inUse parent t)) ∧
    (inUse (parent ++ [t.name]) = false → sweep inUse parent t = none) := by
  constructor
  · intro q _ hnq hmem
    have := sweep_mem_inUse t parent q hmem
    rw [hnq] at this
    exact Bool.noConfusion this
  · exact sweep_eq_none_of_not_inUse

/-- C2 witness: an unprotected file inside the protected swept root is gone
after the sweep, and an unprotected directory is swept to nothing. -/
theorem C2_sweep_completeness_witness :
    (["root", "stale"] ∈ pathsOf [] (FSTree.dir "root" [FSTree.file "stale"])) ∧
    ((fun q => List.contains [["root"]] q) ["root", "stale"] = false) ∧
    (["root", "stale"] ∉ pathsOfOpt []
        (sweep (fun q => List.contains [["root"]] q) []
          (FSTree.dir "root" [FSTree.file "stale"]))) ∧
    sweep (fun _ => false) [] (FSTree.dir "gone" [FSTree.file "x"]) = none := by
  refine ⟨by decide, by decide, ?_, ?_⟩
  · exact (C2_sweep_completeness (fun q => List.contains [["root"]] q) []
      (FSTree.dir "root" [FSTree.file "stale"])).1 ["root", "stale"] (by decide) (by decide)
  · exact (C2_sweep_completeness (fun _ => false) []
      (FSTree.dir "gone" [FSTree.file "x"])).2 (by decide)

/-- C10: the swept root directory is itself subject to the sweep: it is
visited first, and when it is not a member of the protected set it is deleted
together with its entire subtree, including any descendants that are members
of the protected set — so a caller must protect the swept root (and, by
`C1_root_preservation` and `C1_counterexample`, every ancestor of a protected
path) for any protection to take effect. -/
theorem C10_root_is_swept (inUse : FsPath → Bool) (parent : FsPath) (t : FSTree)
    (h : inUse (parent ++ [t.name]) = false) :
    sweep inUse parent t = none ∧
    ∀ q : FsPath, q ∈ pathsOf parent t → q ∉ pathsOfOpt parent (sweep inUse parent t) := by
  have hn := sweep_eq_none_of_not_inUse h
  refine ⟨hn, ?_⟩
  intro q _ hmem
  rw [hn] at hmem
  exact absurd hmem (List.not_mem_nil q)

/-- C10 witness: sweeping a root that is not protected deletes everything,
including its protected descendant `root/a/f`. -/
theorem C10_root_is_swept_witness :
    ((fun q => List.contains [["root", "a", "f"]] q) (([] : FsPath) ++ ["root"]) = false) ∧
    sweep (fun q => List.contains [["root", "a", "f"]] q) []
        (FSTree.dir "root" [FSTree.dir "a" [FSTree.file "f"]]) = none ∧
    (["root", "a", "f"] ∉ pathsOfOpt []
        (sweep (fun q => List.contains [["root", "a", "f"]] q) []
          (FSTree.dir "root" [FSTree.dir "a" [FSTree.file "f"]]))) := by
  have h := C10_root_is_swept (fun q => List.contains [["root", "a", "f"]] q) []
    (FSTree.dir "root" [FSTree.dir "a" [FSTree.file "f"]]) (by decide)
  exact ⟨by decide, h.1, h.2 ["root", "a", "f"] (by decide)⟩

/-! ## Claim C6: error flow of the sweep -/

/-- The result of a `collect_garbage` run does not depend on which
`fs::remove_file` calls fail: their results are discarded by `.ok()`. -/
theorem collectGarbageEvents_file_irrelevant (roots removeDirAllFails f1 f2 : FsPath → Bool) :
    ∀ events : List WalkEvent,
      collectGarbageEvents roots removeDirAllFails f1 events =
        collectGarbageEvents roots removeDirAllFails f2 events := by
  intro events
  induction events with
  | nil => rfl
  | cons ev rest ih =>
      cases ev with
      | err => simp [collectGarbageEvents, in_use, WalkEvent.entry]
      | ok entry =>
          cases entry with
          | file p => simp [collectGarbageEvents, in_use, WalkEvent.entry, WalkEntry.path, ih]
          | dir p => simp [collectGarbageEvents, in_use, WalkEvent.entry, WalkEntry.path, ih]

theorem collectGarbageEvents_ok_iff (roots removeDirAllFails removeFileFails : FsPath → Bool) :
    ∀ events : List WalkEvent,
      collectGarbageEvents roots removeDirAllFails removeFileFails events = Except.ok () ↔
        ∀ ev ∈ events, eventFatal roots removeDirAllFails ev = false := by
  intro events
  induction events with
  | nil => simp [collectGarbageEvents]
  | cons ev rest ih =>
      cases ev with
      | err => simp [collectGarbageEvents, in_use, WalkEvent.entry, eventFatal]
      | ok entry =>
          cases entry with
          | file p =>
              by_cases hr : roots p = true
              · simp [collectGarbageEvents, in_use, WalkEvent.entry, WalkEntry.path, hr,
                  eventFatal, ih]
              · simp only [Bool.not_eq_true] at hr
                simp [collectGarbageEvents, in_use, WalkEvent.entry, WalkEntry.path, hr,
                  eventFatal, ih]
          | dir p =>
              by_cases hr : roots p = true
              · simp [collectGarbageEvents, in_use, WalkEvent.entry, WalkEntry.path, hr,
                  eventFatal, ih]
              · simp only [Bool.not_eq_true] at hr
                by_cases hd : removeDirAllFails p = true
                · simp [collectGarbageEvents, in_use, WalkEvent.entry, WalkEntry.path, hr, hd,
                    eventFatal]
                · simp only [Bool.not_eq_true] at hd
                  simp [collectGarbageEvents, in_use, WalkEvent.entry, WalkEntry.path, hr, hd,
                    eventFatal, ih]

/-- C6: during the sweep, the outcome of `collect_garbage` is independent of
which `fs::remove_file` calls fail (a failed file deletion is the one failure
recovered silently), and the sweep succeeds exactly when the walker produces
no traversal error and `fs::remove_dir_all` fails on no unprotected
directory — any such event is fatal for the whole operation. -/
theorem C6_error_flow (roots removeDirAllFails removeFileFails removeFileFails2 : FsPath → Bool)
    (events : List WalkEvent) :
    collectGarbageEvents roots removeDirAllFails removeFileFails events =
        collectGarbageEvents roots removeDirAllFails removeFileFails2 events ∧
    (collectGarbageEvents roots removeDirAllFails removeFileFails events = Except.ok () ↔
      ∀ ev ∈ events, eventFatal roots removeDirAllFails ev = false) :=
  ⟨collectGarbageEvents_file_irrelevant roots removeDirAllFails removeFileFails
      removeFileFails2 events,
    collectGarbageEvents_ok_iff roots removeDirAllFails removeFileFails events⟩

/-- C6 witness: a concrete sweep in which the only unprotected file's removal
fails still succeeds as a whole, while the fatal-event characterisation holds
on its events. -/
theorem C6_error_flow_witness :
    collectGarbageEvents (fun q => List.contains [["r"]] q) (fun _ => false) (fun _ => true)
        [WalkEvent.ok (WalkEntry.dir ["r"]), WalkEvent.ok (WalkEntry.file ["r", "x"])] =
      Except.ok () :=
  (C6_error_flow (fun q => List.contains [["r"]] q) (fun _ => false) (fun _ => true)
      (fun _ => true)
      [WalkEvent.ok (WalkEntry.dir ["r"]), WalkEvent.ok (WalkEntry.file ["r", "x"])]).2.mpr
    (by decide)

/-! ## Lemmas about `nixos_path` and `RPath` -/

theorem RPath.parent_concat {abs : Bool} {l : List String} {x : String} :
    RPath.parent ⟨abs, l ++ [x]⟩ = some ⟨abs, l⟩ := by
  cases l with
  | nil => rfl
  | cons a as =>
      simp only [RPath.parent, List.cons_append]
      rw [← List.cons_append, List.dropLast_concat]

theorem nixos_path_ok {readLink : RPath → Option RPath} {path par ws : RPath} {name : String}
    (hp : ((readLink path).getD path).parent = some par)
    (hs : par.stripNixStore = some ws) :
    nixos_path readLink path name = Except.ok (ws.display ++ "-" ++ name ++ ".efi") := by
  simp only [nixos_path, hp, hs]

theorem nixos_path_strip_error {readLink : RPath → Option RPath} {path par : RPath}
    {name : String} (hp : ((readLink path).getD path).parent = some par)
    (hs : par.stripNixStore = none) :
    nixos_path readLink path name =
      Except.error ("Failed to strip /nix/store from path " ++ path.display) := by
  simp only [nixos_path, hp, hs]

theorem nixos_path_error_ne_missing {readLink : RPath → Option RPath} {path : RPath}
    {name m : String} (h : nixos_path readLink path name = Except.error m) :
    m ≠ "Lanzaboote does not support missing initrd yet" := by
  cases hp : ((readLink path).getD path).parent with
  | none =>
      simp only [nixos_path, hp] at h
      have hm := (Except.error.inj h).symm
      rw [hm]
      exact strNe_of_head (strHead_append _ rfl) rfl (by decide)
  | some par =>
      cases hs : par.stripNixStore with
      | none =>
          rw [nixos_path_strip_error hp hs] at h
          have hm := (Except.error.inj h).symm
          rw [hm]
          exact strNe_of_head (strHead_append _ rfl) rfl (by decide)
      | some ws =>
          rw [nixos_path_ok hp hs] at h
          exact Except.noConfusion h

/-! ## Claim C3: the `nixos_path` sub-algorithm -/

/-- C3: `nixos_path` resolves the artifact path through one level of symlink
indirection via the `read_link` oracle, falling back to the path itself when
resolution fails (both cases are the `(readLink path).getD path` resolved
value below); it takes the parent of the resolved path, strips the literal
`/nix/store` from it, and returns `"{suffix}-{kind}.efi"` where the suffix is
the displayed remainder; when the prefix is absent it fails with the
`NotInStoreError` message. -/
theorem C3_nixos_path (readLink : RPath → Option RPath) (path : RPath) (name : String) :
    (∀ suffix : List String, ∀ last : String,
        (readLink path).getD path = ⟨true, "nix" :: "store" :: (suffix ++ [last])⟩ →
        nixos_path readLink path name =
          Except.ok (RPath.display ⟨false, suffix⟩ ++ "-" ++ name ++ ".efi")) ∧
    (∀ par : RPath, ((readLink path).getD path).parent = some par →
        par.stripNixStore = none →
        nixos_path readLink path name =
          Except.error ("Failed to strip /nix/store from path " ++ path.display)) := by
  constructor
  · intro suffix last h
    have hp : ((readLink path).getD path).parent = some ⟨true, "nix" :: "store" :: suffix⟩ := by
      rw [h]
      have h2 : "nix" :: "store" :: (suffix ++ [last]) =
          ("nix" :: "store" :: suffix) ++ [last] := by simp
      rw [h2]
      exact RPath.parent_concat
    have hs : RPath.stripNixStore ⟨true, "nix" :: "store" :: suffix⟩ = some ⟨false, suffix⟩ :=
      rfl
    exact nixos_path_ok hp hs
  · intro par hp hs
    exact nixos_path_strip_error hp hs

/-- C3 witness: a kernel at `/nix/store/abcd-kernel-5.10/bzImage` (already a
real path, so symlink resolution falls back to it) yields the ESP file name
`abcd-kernel-5.10-bzImage.efi`, and a kernel outside the store fails with the
strip error. -/
theorem C3_nixos_path_witness :
    nixos_path readLinkNone ⟨true, ["nix", "store", "abcd-kernel-5.10", "bzImage"]⟩ "bzImage" =
      Except.ok "abcd-kernel-5.10-bzImage.efi" ∧
    nixos_path readLinkNone ⟨true, ["boot", "vmlinuz"]⟩ "bzImage" =
      Except.error "Failed to strip /nix/store from path /boot/vmlinuz" := by
  constructor
  · have h := (C3_nixos_path readLinkNone
      ⟨true, ["nix", "store", "abcd-kernel-5.10", "bzImage"]⟩ "bzImage").1
      ["abcd-kernel-5.10"] "bzImage" rfl
    rw [h]
    rfl
  · have h := (C3_nixos_path readLinkNone ⟨true, ["boot", "vmlinuz"]⟩ "bzImage").2
      ⟨true, ["boot"]⟩ rfl rfl
    rw [h]
    rfl

/-! ## Claim C4: `parse_version` -/

/-- C4: `parse_version` takes the final path component, splits it on `-`, and
returns the second field parsed as a `u64`; it fails exactly when the name has
fewer than two `-`-separated fields or the second field does not parse as a
non-negative integer. -/
theorem C4_parse_version (path : RPath) (fname : String)
    (hf : path.fileName = some fname) :
    (∀ s v, (rustSplit '-' fname)[1]? = some s → rustParseU64 s = some v →
        parse_version path = Except.ok v) ∧
    ((rustSplit '-' fname).length < 2 →
        parse_version path =
          Except.error ("Failed to extract version from link: " ++ fname)) ∧
    (∀ s, (rustSplit '-' fname)[1]? = some s → rustParseU64 s = none →
        parse_version path =
          Except.error ("Failed to parse generation version: " ++ s)) := by
  refine ⟨?_, ?_, ?_⟩
  · intro s v h1 h2
    simp only [parse_version, hf, h1, h2]
  · intro hlen
    have h1 : (rustSplit '-' fname)[1]? = none := by
      apply List.getElem?_eq_none
      omega
    simp only [parse_version, hf, h1]
  · intro s h1 h2
    simp only [parse_version, hf, h1, h2]

/-- C4 witness: `parse_version("profile-42-link")` yields `42`, and
`parse_version("bad-name")` fails because `name` is not a number. -/
theorem C4_parse_version_witness :
    parse_version ⟨false, ["profile-42-link"]⟩ = Except.ok 42 ∧
    parse_version ⟨false, ["bad-name"]⟩ =
      Except.error ("Failed to parse generation version: " ++ "name") := by
  constructor
  · exact (C4_parse_version ⟨false, ["profile-42-link"]⟩ "profile-42-link" rfl).1 "42" 42
      (by decide) (by decide)
  · exact (C4_parse_version ⟨false, ["bad-name"]⟩ "bad-name" rfl).2.2 "name"
      (by decide) (by decide)

/-! ## Claim C7: the merged-image file name -/

/-- C7: the merged-image file name is
`"nixos-generation-{version}-specialisation-{name}.efi"` for a specialisation
and `"nixos-generation-{version}.efi"` for a base generation, where
`{version}` is exactly the `Display` rendering of the generation, i.e. the
decimal version number and nothing else. -/
theorem C7_generation_path (g : Generation) :
    generationDisplay g = Nat.repr g.version ∧
    (∀ n, g.specialisation_name = some n →
        generation_path g =
          ("nixos-generation-" ++ Nat.repr g.version) ++
            ("-specialisation-" ++ (n ++ ".efi"))) ∧
    (g.specialisation_name = none →
        generation_path g = ("nixos-generation-" ++ Nat.repr g.version) ++ ".efi") := by
  refine ⟨rfl, ?_, ?_⟩
  · intro n h
    simp only [generation_path, Generation.is_specialized, h, generationDisplay]
  · intro h
    simp only [generation_path, Generation.is_specialized, h, generationDisplay]

/-- C7 witness: the file names of fixture generation 1 and of its
specialisation `x`. -/
theorem C7_generation_path_witness :
    generation_path genAx = "nixos-generation-1-specialisation-x.efi" ∧
    generation_path genA = "nixos-generation-1.efi" := by
  constructor
  · rw [(C7_generation_path genAx).2.1 "x" rfl]
    rfl
  · rw [(C7_generation_path genA).2.2 rfl]
    rfl

/-! ## Claim C9: `Generation::specialise` -/

/-- C9: `specialise` succeeds with a `Generation` sharing the input's version,
carrying the given specialisation name, and a spec built from the given
sub-descriptor with extension extraction re-run on it; whatever the base
generation looks like, it fails with the missing-extension error exactly as
`extract_extensions` does when the `lanzaboote` key is absent from the
sub-descriptor's extension map. -/
theorem C9_specialise (g : Generation) (name : String) (bootspec : BootJson) :
    (jsonLookup "lanzaboote" bootspec.extensions = none →
        Generation.specialise g name bootspec =
          Except.error
            "Failed to extract Lanzaboote-specific extension from Bootspec, missing lanzaboote field in `extensions`") ∧
    (∀ r, Generation.specialise g name bootspec = Except.ok r →
        r.version = g.version ∧ r.specialisation_name = some name ∧
        r.spec.bootspec = bootspec ∧
        extract_extensions bootspec = Except.ok r.spec.extensions) := by
  constructor
  · intro h
    simp only [Generation.specialise, extract_extensions, h]
  · intro r h
    cases he : extract_extensions bootspec with
    | error e =>
        simp only [Generation.specialise, he] at h
        exact Except.noConfusion h
    | ok ext =>
        simp only [Generation.specialise, he] at h
        have hr := Except.ok.inj h
        rw [← hr]
        exact ⟨rfl, rfl, rfl, rfl⟩

/-- C9 witness: specialising under a descriptor with no `lanzaboote` extension
fails with the missing-extension error even though the base generation's own
extraction succeeded, and specialising fixture generation 1 under a
well-formed sub-descriptor yields `genAvm`. -/
theorem C9_specialise_witness :
    Generation.specialise genA "vm"
        { kernel := ⟨true, ["k"]⟩, initrd := none, extensions := [] } =
      Except.error
        "Failed to extract Lanzaboote-specific extension from Bootspec, missing lanzaboote field in `extensions`" ∧
    (genAvm.version = genA.version ∧ genAvm.specialisation_name = some "vm" ∧
      genAvm.spec.bootspec = bootJsonFixture "aaa-kernel" "aaa-initrd" ∧
      extract_extensions (bootJsonFixture "aaa-kernel" "aaa-initrd") =
        Except.ok genAvm.spec.extensions) :=
  ⟨(C9_specialise genA "vm" { kernel := ⟨true, ["k"]⟩, initrd := none, extensions := [] }).1 rfl,
    (C9_specialise genA "vm" (bootJsonFixture "aaa-kernel" "aaa-initrd")).2 genAvm rfl⟩

/-! ## Claims C5, C8: `EspPaths` derivation -/

/-- On a successful `EspPaths::new`, the derived file fields have the shapes
the struct literal in `esp.rs` gives them. -/
theorem EspPaths_new_ok_fields {readLink : RPath → Option RPath} {esp : String}
    {g : Generation} {e : EspPaths} (h : EspPaths.new readLink esp g = Except.ok e) :
    ∃ k i t, nixos_path readLink g.spec.bootspec.kernel "bzImage" = Except.ok k ∧
      g.spec.bootspec.initrd = some i ∧ nixos_path readLink i "initrd" = Except.ok t ∧
      e.kernel = ((esp ++ "/EFI") ++ "/nixos") ++ "/" ++ k ∧
      e.initrd = ((esp ++ "/EFI") ++ "/nixos") ++ "/" ++ t ∧
      e.lanzaboote_image = ((esp ++ "/EFI") ++ "/Linux") ++ "/" ++ generation_path g := by
  cases hk : nixos_path readLink g.spec.bootspec.kernel "bzImage" with
  | error m =>
      simp only [EspPaths.new, hk] at h
      exact Except.noConfusion h
  | ok k =>
      cases hi : g.spec.bootspec.initrd with
      | none =>
          simp only [EspPaths.new, hk, hi] at h
          exact Except.noConfusion h
      | some i =>
          cases ht : nixos_path readLink i "initrd" with
          | error m =>
              simp only [EspPaths.new, hk, hi, ht] at h
              exact Except.noConfusion h
          | ok t =>
              simp only [EspPaths.new, hk, hi, ht] at h
              have hr := Except.ok.inj h
              exact ⟨k, i, t, rfl, rfl, ht, by rw [← hr], by rw [← hr], by rw [← hr]⟩

/-- C5: two generations whose kernels sit in store objects with distinct
displayed suffixes get distinct `kernel` paths; two specialisations sharing a
version but with distinct names get distinct `lanzaboote_image` paths; and a
base generation's `lanzaboote_image` never equals that of a specialisation of
the same version. -/
theorem C5_collision_freedom (rl1 rl2 : RPath → Option RPath) (esp : String)
    (g1 g2 : Generation) {e1 e2 : EspPaths}
    (he1 : EspPaths.new rl1 esp g1 = Except.ok e1)
    (he2 : EspPaths.new rl2 esp g2 = Except.ok e2) :
    (∀ par1 ws1 par2 ws2 : RPath,
        ((rl1 g1.spec.bootspec.kernel).getD g1.spec.bootspec.kernel).parent = some par1 →
        par1.stripNixStore = some ws1 →
        ((rl2 g2.spec.bootspec.kernel).getD g2.spec.bootspec.kernel).parent = some par2 →
        par2.stripNixStore = some ws2 →
        ws1.display ≠ ws2.display → e1.kernel ≠ e2.kernel) ∧
    (∀ n1 n2 : String, g1.version = g2.version → g1.specialisation_name = some n1 →
        g2.specialisation_name = some n2 → n1 ≠ n2 →
        e1.lanzaboote_image ≠ e2.lanzaboote_image) ∧
    (∀ n2 : String, g1.version = g2.version → g1.specialisation_name = none →
        g2.specialisation_name = some n2 →
        e1.lanzaboote_image ≠ e2.lanzaboote_image) := by
  obtain ⟨k1, i1, t1, hk1, hi1, ht1, hek1, _, heL1⟩ := EspPaths_new_ok_fields he1
  obtain ⟨k2, i2, t2, hk2, hi2, ht2, hek2, _, heL2⟩ := EspPaths_new_ok_fields he2
  refine ⟨?_, ?_, ?_⟩
  · intro par1 ws1 par2 ws2 hp1 hs1 hp2 hs2 hne heq
    apply hne
    have h1 : nixos_path rl1 g1.spec.bootspec.kernel "bzImage" =
        Except.ok (ws1.display ++ "-" ++ "bzImage" ++ ".efi") := nixos_path_ok hp1 hs1
    rw [hk1] at h1
    have hk1e := Except.ok.inj h1
    have h2 : nixos_path rl2 g2.spec.bootspec.kernel "bzImage" =
        Except.ok (ws2.display ++ "-" ++ "bzImage" ++ ".efi") := nixos_path_ok hp2 hs2
    rw [hk2] at h2
    have hk2e := Except.ok.inj h2
    rw [hek1, hek2, hk1e, hk2e] at heq
    have step1 := strAppend_right_cancel (strAppend_left_cancel heq)
    have step2 := strAppend_right_cancel step1
    exact strAppend_right_cancel step2
  · intro n1 n2 hv hn1 hn2 hne heq
    apply hne
    rw [heL1, heL2] at heq
    have heq2 := strAppend_left_cancel heq
    rw [generation_path, generation_path, Generation.is_specialized,
      Generation.is_specialized, hn1, hn2] at heq2
    have hd : generationDisplay g1 = generationDisplay g2 := by
      simp only [generationDisplay, hv]
    rw [hd] at heq2
    have heq3 := strAppend_left_cancel (strAppend_left_cancel heq2)
    exact strAppend_right_cancel heq3
  · intro n2 hv hn1 hn2 heq
    rw [heL1, heL2] at heq
    have heq2 := strAppend_left_cancel heq
    rw [generation_path, generation_path, Generation.is_specialized,
      Generation.is_specialized, hn1, hn2] at heq2
    have hd : generationDisplay g1 = generationDisplay g2 := by
      simp only [generationDisplay, hv]
    rw [hd] at heq2
    have heq3 := strAppend_left_cancel heq2
    exact strNe_of_head
      (rfl : (".efi").data.head? = some '.')
      (strHead_append (n2 ++ ".efi")
        (rfl : ("-specialisation-").data = '-' :: ("specialisation-").data))
      (by decide) heq3

/-- C5 witness: fixture generations with kernels in `aaa-kernel` vs
`bbb-kernel` get distinct kernel paths; specialisations `x` and `y` of
generation 1 get distinct image paths; the base image path differs from the
specialisation's. -/
theorem C5_collision_freedom_witness :
    ("esp/EFI/nixos/aaa-kernel-bzImage.efi" : String) ≠
      "esp/EFI/nixos/bbb-kernel-bzImage.efi" ∧
    ("esp/EFI/Linux/nixos-generation-1-specialisation-x.efi" : String) ≠
      "esp/EFI/Linux/nixos-generation-1-specialisation-y.efi" ∧
    ("esp/EFI/Linux/nixos-generation-1.efi" : String) ≠
      "esp/EFI/Linux/nixos-generation-1-specialisation-x.efi" :=
  ⟨(C5_collision_freedom readLinkNone readLinkNone "esp" genA genB rfl rfl).1
      ⟨true, ["nix", "store", "aaa-kernel"]⟩ ⟨false, ["aaa-kernel"]⟩
      ⟨true, ["nix", "store", "bbb-kernel"]⟩ ⟨false, ["bbb-kernel"]⟩
      rfl rfl rfl rfl (by decide),
    (C5_collision_freedom readLinkNone readLinkNone "esp" genAx genAy rfl rfl).2.1
      "x" "y" rfl rfl rfl (by decide),
    (C5_collision_freedom readLinkNone readLinkNone "esp" genA genAx rfl rfl).2.2
      "x" rfl rfl rfl⟩

/-- C8 counterexample: a generation with no initrd whose kernel is outside
`/nix/store` makes `EspPaths` derivation fail with the store-strip error of
the kernel field (evaluated first in the struct literal), not with
`MissingInitrdError` — so "fails with MissingInitrdError exactly when the
initrd is absent" does not hold as stated. -/
theorem C8_counterexample :
    genOutsideStoreNoInitrd.spec.bootspec.initrd = none ∧
    EspPaths.new readLinkNone "esp" genOutsideStoreNoInitrd =
      Except.error "Failed to strip /nix/store from path /boot/vmlinuz" ∧
    ("Failed to strip /nix/store from path /boot/vmlinuz" : String) ≠
      "Lanzaboote does not support missing initrd yet" :=
  ⟨rfl, rfl, by decide⟩

/-- C8 (amended): provided the kernel field's `nixos_path` derivation
succeeds, `EspPaths` derivation fails with `MissingInitrdError` exactly when
the generation's boot descriptor has no initrd path; and when the initrd is
present and derivation succeeds, the `initrd` field is
`nixos_path(bootspec.initrd, "initrd")` joined under `EFI/nixos`. -/
theorem C8_missing_initrd (rl : RPath → Option RPath) (esp : String) (g : Generation)
    (s : String) (hk : nixos_path rl g.spec.bootspec.kernel "bzImage" = Except.ok s) :
    (EspPaths.new rl esp g = Except.error "Lanzaboote does not support missing initrd yet" ↔
      g.spec.bootspec.initrd = none) ∧
    (∀ i : RPath, ∀ e : EspPaths, g.spec.bootspec.initrd = some i →
        EspPaths.new rl esp g = Except.ok e →
        ∃ t, nixos_path rl i "initrd" = Except.ok t ∧
          e.initrd = ((esp ++ "/EFI") ++ "/nixos") ++ "/" ++ t) := by
  constructor
  · constructor
    · intro h
      cases hi : g.spec.bootspec.initrd with
      | none => rfl
      | some i =>
          exfalso
          cases ht : nixos_path rl i "initrd" with
          | error m =>
              simp only [EspPaths.new, hk, hi, ht] at h
              exact nixos_path_error_ne_missing ht (Except.error.inj h)
          | ok t =>
              simp only [EspPaths.new, hk, hi, ht] at h
              exact Except.noConfusion h
    · intro h
      simp only [EspPaths.new, hk, h]
  · intro i e hi he
    obtain ⟨k, i2, t, _, hi2, ht2, _, heInitrd, _⟩ := EspPaths_new_ok_fields he
    rw [hi] at hi2
    have hii : i2 = i := (Option.some.inj hi2).symm
    rw [hii] at ht2
    exact ⟨t, ht2, heInitrd⟩

/-- C8 witness: a generation with a store kernel and no initrd fails with the
missing-initrd error. -/
theorem C8_missing_initrd_witness :
    EspPaths.new readLinkNone "esp" genNoInitrd =
      Except.error "Lanzaboote does not support missing initrd yet" :=
  (C8_missing_initrd readLinkNone "esp" genNoInitrd _
    (nixos_path_ok
      (rfl : ((readLinkNone genNoInitrd.spec.bootspec.kernel).getD
          genNoInitrd.spec.bootspec.kernel).parent =
        some ⟨true, ["nix", "store", "ccc-kernel"]⟩)
      (rfl : RPath.stripNixStore ⟨true, ["nix", "store", "ccc-kernel"]⟩ =
        some ⟨false, ["ccc-kernel"]⟩))).1.mpr rfl

end Lanzatool
